import Mathlib

/-!
Shallow embedding of the wildberries-parsers repository
(src/stable-version/start.py and src/legacy-version/start.py) and proofs
about its catalogue flattening, category resolution, paginated harvesting,
product-page parsing and sales enrichment.

Conventions used throughout:
* Python dictionaries coming from JSON are modelled as structures whose
  possibly-absent keys have `Option` type; `d[k]` on an absent key raises
  `KeyError`, modelled by `Except` with `PyErr.keyError`.
* Network fetches are modelled by oracles: functions from a page number or
  product id to the decoded response (or to an `Except` when the fetch
  itself may raise).
* Loops bounded by `range` are modelled by structural recursion on the
  number of remaining iterations, so everything evaluates by `decide`/`rfl`.
-/

/-- Python exceptions that the two scripts can raise or catch.
`keyError k` is `KeyError(k)` from a dict lookup, `indexError` is
`IndexError` from `response[0]` on an empty list, `typeError` is the
`TypeError` raised by `None / 100`, `valueError` is the `ValueError` raised
by `find_category_in_catalog`, `connectTimeout` is `requests.ConnectTimeout`
(the only exception `get_sales_data` catches), `readTimeout` stands for
`requests.ReadTimeout`, and `requestException` for any other error raised by
`requests.get(...)`/`.json()`. -/
inductive PyErr where
  | keyError (k : String)
  | indexError
  | typeError
  | valueError
  | connectTimeout
  | readTimeout
  | requestException
deriving DecidableEq

/-- How a harvest loop ended: the page loop saw an empty page
(`naturalEnd`, the `break`), ran out of pages (`ceilingReached`, the `for`
range was exhausted) or an exception propagated out of the page handling
(`aborted`).  This is instrumentation of the model: the Python functions do
not return this information, see the claims about observability. -/
inductive Outcome where
  | naturalEnd
  | ceilingReached
  | aborted (e : PyErr)
deriving DecidableEq

/-- Result of running a harvest loop: the accumulated product cards, the
number of page fetches that were issued, and how the loop ended. -/
structure HarvestRun (α : Type) where
  cards : List α
  fetches : Nat
  outcome : Outcome
deriving DecidableEq

/-! ## Python `s.split(sep)[-1]`

Both resolvers compare category urls against
`user_input.split("https://www.wildberries.ru")[-1]`, the part of the user
input after the last occurrence of that literal (the whole input when the
literal does not occur).  Python `str.split` scans left to right over
non-overlapping occurrences, so the last piece is obtained by repeatedly
jumping past the first occurrence. -/

/-- Index of the first occurrence of `sep` in `s` (Python `s.find(sep)`),
`none` when `sep` does not occur.  For an empty `sep` this is `some 0`. -/
def findOcc (sep : List Char) : List Char → Option Nat
  | [] => if sep.isEmpty then some 0 else none
  | c :: rest =>
    if sep.isPrefixOf (c :: rest) then some 0
    else (findOcc sep rest).map (· + 1)

/-- One `split` step per unit of fuel: jump past the first occurrence of
`sep` until none is left.  `s.length` units of fuel always suffice for a
non-empty `sep` (each step removes at least one character). -/
def splitLastAux (sep : List Char) : Nat → List Char → List Char
  | 0, s => s
  | fuel + 1, s =>
    match findOcc sep s with
    | none => s
    | some i => splitLastAux sep fuel (s.drop (i + sep.length))

/-- Python `s.split(sep)[-1]` for a non-empty separator. -/
def pySplitLast (sep s : String) : String :=
  ⟨splitLastAux sep.data s.data.length s.data⟩

/-- The literal site prefix both resolvers strip from the user input. -/
def wbSite : String := "https://www.wildberries.ru"

/-- The suffix of the user input that the resolvers compare against
category urls: `user_input.split("https://www.wildberries.ru")[-1]`. -/
def wbSuffix (s : String) : String := pySplitLast wbSite s

/-! ## The catalogue tree

The catalogue JSON is a forest: a list of category objects, each with the
string keys `name`, `url`, `shard`, `query` (any of which may be absent)
and an optional `childs` list of sub-categories.  A forest is represented
head-first: empty, or a first category together with its `childs` forest
followed by the forest of its remaining siblings.  An absent `childs` key
is modelled as the empty child forest; recursing into an empty list appends
nothing, which is exactly the behaviour of skipping the recursion. -/
inductive CatForest where
  | nil : CatForest
  | node (name url shard query : Option String) (childs rest : CatForest) : CatForest
deriving DecidableEq

namespace Stable

/-- One flattened catalogue entry produced by `traverse_json` in
stable-version/start.py.  All four fields are present because the dict
appended there is built from `category['name']`, `category['url']`,
`category['shard']`, `category['query']`, all of which must exist or the
append is skipped. -/
structure Flat where
  name : String
  url : String
  shard : String
  query : String
deriving DecidableEq

/-- Embedding of `Parser.traverse_json` (stable-version/start.py, lines
38-54).  For each category the four keys are looked up and the entry is
appended; a `KeyError` on any of the four is caught and `continue`s to the
next sibling, which also skips the `childs` recursion of the failed node.
The Python function mutates the accumulator list; here it is threaded. -/
def traverse_json : CatForest → List Flat → List Flat
  | .nil, acc => acc
  | .node name url shard query childs rest, acc =>
    match name, url, shard, query with
    | some n, some u, some s, some q =>
      traverse_json rest (traverse_json childs (acc ++ [⟨n, u, s, q⟩]))
    | _, _, _, _ => traverse_json rest acc

/-- Accumulator-free form of `traverse_json` (helper for reasoning). -/
def flattenCat : CatForest → List Flat
  | .nil => []
  | .node name url shard query childs rest =>
    match name, url, shard, query with
    | some n, some u, some s, some q =>
      ⟨n, u, s, q⟩ :: (flattenCat childs ++ flattenCat rest)
    | _, _, _, _ => flattenCat rest

/-- Embedding of the stable version's `Parser.extract_category_data`
(lines 65-73), the category resolver: walk the flattened catalogue in
order and return `(name, shard, query)` of the first entry whose `url`
equals `user_input.split("https://www.wildberries.ru")[-1]` or whose
`name` equals `user_input`; `None` when nothing matches. -/
def extract_category_data : List Flat → String → Option (String × String × String)
  | [], _ => none
  | c :: rest, user_input =>
    if wbSuffix user_input = c.url ∨ user_input = c.name then
      some (c.name, c.shard, c.query)
    else
      extract_category_data rest user_input

/-- One product object of a listing-page response, with the fields the
stable version reads via `item[...]` (all raise `KeyError` when absent; the
embedding models responses in which they are present). -/
structure Item where
  id : Int
  name : String
  brand : String
  brandId : Int
  priceU : Int
  salePriceU : Int
  rating : Int
  feedbacks : Int
deriving DecidableEq

/-- One parsed product card as built by `get_products_on_page`. -/
structure Card where
  link : String
  id : Int
  name : String
  brand : String
  brandId : Int
  price : Int
  discountedPrice : Int
  rating : Int
  reviews : Int
deriving DecidableEq

/-- The per-item dict built inside `get_products_on_page`.  Python's
`int(item['priceU'] / 100)` divides by 100 with `/` and truncates the
result toward zero with `int(...)`; it is modelled as exact division
truncated toward zero (`Int.tdiv`). -/
def toCard (item : Item) : Card :=
  { link := "https://www.wildberries.ru/catalog/" ++ toString item.id ++ "/detail.aspx"
    id := item.id
    name := item.name
    brand := item.brand
    brandId := item.brandId
    price := Int.tdiv item.priceU 100
    discountedPrice := Int.tdiv item.salePriceU 100
    rating := item.rating
    reviews := item.feedbacks }

/-- The listing container `data` of one page response; its `products` key
may be absent. -/
structure DataObj where
  products : Option (List Item)
deriving DecidableEq

/-- One decoded listing-page response; the `data` key may be absent. -/
structure PageData where
  data : Option DataObj
deriving DecidableEq

/-- Embedding of `Parser.get_products_on_page` (stable-version/start.py,
lines 75-93): `page_data['data']['products']` raises `KeyError` when either
key is absent, otherwise every product object is mapped to a card. -/
def get_products_on_page (page_data : PageData) : Except PyErr (List Card) :=
  match page_data.data with
  | none => .error (.keyError "data")
  | some d =>
    match d.products with
    | none => .error (.keyError "products")
    | some items => .ok (items.map toCard)

/-- Embedding of `Parser.add_data_from_page` (lines 95-108).  The argument
is the outcome of `requests.get(url).json()` for this page.  On success the
parsed cards are appended to `product_cards` and the function returns
whether the page was empty (`True` stops the pagination); any exception
from the fetch or from `get_products_on_page` propagates. -/
def add_data_from_page (resp : Except PyErr PageData) : Except PyErr (List Card × Bool) :=
  match resp with
  | .error e => .error e
  | .ok pd =>
    match get_products_on_page pd with
    | .error e => .error e
    | .ok [] => .ok ([], true)
    | .ok cards => .ok (cards, false)

/-- The `for page in range(1, 101)` loop of
`Parser.get_all_products_in_category` (lines 118-126), recursing on the
number of remaining pages.  `fetch p` is the decoded response for page `p`
(or the exception the fetch raised).  The `HarvestRun` records the cards
accumulated in `self.product_cards`, the number of pages fetched and how
the loop ended; the Python function itself returns `None`, so only the
accumulated cards are visible to its caller. -/
def category_loop (fetch : Nat → Except PyErr PageData) : Nat → Nat → HarvestRun Card
  | _, 0 => ⟨[], 0, .ceilingReached⟩
  | p, fuel + 1 =>
    match add_data_from_page (fetch p) with
    | .error e => ⟨[], 1, .aborted e⟩
    | .ok (_, true) => ⟨[], 1, .naturalEnd⟩
    | .ok (cards, false) =>
      let r := category_loop fetch (p + 1) fuel
      ⟨cards ++ r.cards, r.fetches + 1, r.outcome⟩

/-- Embedding of `Parser.get_all_products_in_category`: pages 1 to 100. -/
def get_all_products_in_category (fetch : Nat → Except PyErr PageData) : HarvestRun Card :=
  category_loop fetch 1 100

/-- One element of the sold-quantity response array; the `qnt` key may be
absent. -/
structure SalesObj where
  qnt : Option Int
deriving DecidableEq

/-- The value stored under the `Selled` key by `get_sales_data`: either the
quantity from the response or the literal string `'no data'`. -/
inductive Selled where
  | qnt (n : Int)
  | noData
deriving DecidableEq

/-- A product card after sales enrichment. -/
structure SCard where
  card : Card
  selled : Selled
deriving DecidableEq

/-- Handling of a single card inside `Parser.get_sales_data` (lines
128-139).  `fetch` is the outcome of `requests.get(url).json()` for the
card's id.  Only `requests.ConnectTimeout` is caught (sentinel
`'no data'`); every other exception propagates, as do the `IndexError` of
`response[0]` on an empty array and the `KeyError` of `['qnt']`. -/
def sales_step (fetch : Int → Except PyErr (List SalesObj)) (card : Card) :
    Except PyErr SCard :=
  match fetch card.id with
  | .ok [] => .error .indexError
  | .ok (o :: _) =>
    match o.qnt with
    | some q => .ok ⟨card, .qnt q⟩
    | none => .error (.keyError "qnt")
  | .error .connectTimeout => .ok ⟨card, .noData⟩
  | .error e => .error e

/-- Embedding of `Parser.get_sales_data`: enrich each card in order; the
first uncaught exception aborts the whole loop. -/
def get_sales_data (fetch : Int → Except PyErr (List SalesObj)) :
    List Card → Except PyErr (List SCard)
  | [] => .ok []
  | c :: rest =>
    match sales_step fetch c with
    | .error e => .error e
    | .ok sc => (get_sales_data fetch rest).map (sc :: ·)

end Stable

namespace Legacy

/-- One flattened catalogue entry produced by `extract_category_data` in
legacy-version/start.py: `name` and `url` are looked up with `catalog[...]`
(raising `KeyError` when absent) while `shard` and `query` use
`catalog.get(..., None)`. -/
structure Flat where
  name : String
  url : String
  shard : Option String
  query : Option String
deriving DecidableEq

/-- Embedding of the legacy `Parser.extract_category_data` (lines 21-42),
the flattener: every category contributes one entry (its dict is appended
whether or not it has `childs`), then its `childs` and then its siblings
are flattened.  The dict literal evaluates `catalog['name']` first and
`catalog['url']` third, so a missing `name` raises `KeyError('name')` and a
present `name` with a missing `url` raises `KeyError('url')`; nothing
catches these, so they abort the whole walk. -/
def extract_category_data : CatForest → Except PyErr (List Flat)
  | .nil => .ok []
  | .node name url shard query childs rest =>
    match name, url with
    | some n, some u =>
      match extract_category_data childs with
      | .error e => .error e
      | .ok c =>
        match extract_category_data rest with
        | .error e => .error e
        | .ok r => .ok (⟨n, u, shard, query⟩ :: (c ++ r))
    | none, _ => .error (.keyError "name")
    | some _, none => .error (.keyError "url")

/-- Embedding of `Parser.find_category_in_catalog` (lines 44-51): walk the
flattened catalogue in order and return the first entry whose `url` equals
`self.url.split('https://www.wildberries.ru')[-1]`; raise `ValueError` when
none does.  Note there is no comparison against the category name. -/
def find_category_in_catalog : List Flat → String → Except PyErr Flat
  | [], _ => .error .valueError
  | c :: rest, url =>
    if c.url = wbSuffix url then .ok c
    else find_category_in_catalog rest url

/-- One product object of a listing-page response as read by the legacy
`extract_product_data`: every field is read with `item.get(...)`, which
yields `None` rather than raising when the key is absent. -/
structure Item where
  id : Option Int
  name : Option String
  priceU : Option Int
  salePriceU : Option Int
  feedbackPoints : Option Int
  sale : Option Int
  brand : Option String
  rating : Option Int
  supplier : Option String
  supplierRating : Option Int
  feedbacks : Option Int
  reviewRating : Option Int
  promoTextCard : Option String
  promoTextCat : Option String
deriving DecidableEq

/-- One parsed product dict as built by the legacy `extract_product_data`. -/
structure Card where
  id : Option Int
  name : Option String
  price : Int
  salePriceU : Int
  cashback : Option Int
  sale : Option Int
  brand : Option String
  rating : Option Int
  supplier : Option String
  supplierRating : Option Int
  feedbacks : Option Int
  reviewRating : Option Int
  promoTextCard : Option String
  promoTextCat : Option String
  link : String
deriving DecidableEq

/-- The per-item dict literal of the legacy `extract_product_data`.
`int(item.get("priceU") / 100)` raises `TypeError` when `priceU` is absent
(`None / 100`); the dict evaluates `price` before `salePriceU`.  As in the
stable version the division truncates toward zero.  The link interpolates
`item.get("id")`, which Python renders as the string `None` when absent. -/
def toCard (item : Item) : Except PyErr Card :=
  match item.priceU, item.salePriceU with
  | some p, some sp =>
    .ok { id := item.id
          name := item.name
          price := Int.tdiv p 100
          salePriceU := Int.tdiv sp 100
          cashback := item.feedbackPoints
          sale := item.sale
          brand := item.brand
          rating := item.rating
          supplier := item.supplier
          supplierRating := item.supplierRating
          feedbacks := item.feedbacks
          reviewRating := item.reviewRating
          promoTextCard := item.promoTextCard
          promoTextCat := item.promoTextCat
          link := "https://www.wildberries.ru/catalog/"
            ++ (match item.id with
                | some i => toString i
                | none => "None")
            ++ "/detail.aspx?targetUrl=BP" }
  | none, _ => .error .typeError
  | some _, none => .error .typeError

/-- The listing container of one legacy page response. -/
structure DataObj where
  products : Option (List Item)
deriving DecidableEq

/-- One decoded legacy listing-page response. -/
structure PageData where
  data : Option DataObj
deriving DecidableEq

/-- List of products mapped one by one, stopping at the first raising item
(the Python `for` loop appends until an exception propagates). -/
def mapCards : List Item → Except PyErr (List Card)
  | [] => .ok []
  | i :: rest =>
    match toCard i with
    | .error e => .error e
    | .ok c => (mapCards rest).map (c :: ·)

/-- Embedding of the legacy `Parser.extract_product_data` (lines 53-75):
`json_data['data']['products']` raises `KeyError` when either key is
absent, otherwise the items are converted in order. -/
def extract_product_data (json_data : PageData) : Except PyErr (List Card) :=
  match json_data.data with
  | none => .error (.keyError "data")
  | some d =>
    match d.products with
    | none => .error (.keyError "products")
    | some items => mapCards items

/-- Embedding of the `@retry(Exception, tries=-1, delay=0)` decorator on
`Parser.scrape_page` (line 77): call the wrapped function; on ANY exception
call it again immediately, without bound.  `att n` is the outcome of the
`n`-th attempt (0-based).  Because the Python loop is unbounded, the model
observes it through a finite window of `fuel` attempts: `some (v, n)` means
the call returned `v` after `n` attempts, `none` means it was still
retrying after `fuel` attempts. -/
def retry_call {α : Type} (att : Nat → Except PyErr α) : Nat → Nat → Option (α × Nat)
  | _, 0 => none
  | i, fuel + 1 =>
    match att i with
    | .ok v => some (v, 1)
    | .error _ => (retry_call att (i + 1) fuel).map (fun r => (r.1, r.2 + 1))

end Legacy

/-- The shared page-loop shape of `Parser.collect_products`
(legacy-version/start.py, lines 89-102) and
`Parser.get_all_products_in_category` (stable-version/start.py, lines
118-126): for each page in a bounded range, obtain the page's parsed
product list (`step p`); an exception propagating from the page handling
aborts the loop, an empty list breaks out of it, a non-empty list is
appended and the loop continues.  Recursion is on the number of remaining
pages. -/
def pageLoop {α : Type} (step : Nat → Except PyErr (List α)) : Nat → Nat → HarvestRun α
  | _, 0 => ⟨[], 0, .ceilingReached⟩
  | p, fuel + 1 =>
    match step p with
    | .error e => ⟨[], 1, .aborted e⟩
    | .ok [] => ⟨[], 1, .naturalEnd⟩
    | .ok cards =>
      let r := pageLoop step (p + 1) fuel
      ⟨cards ++ r.cards, r.fetches + 1, r.outcome⟩

/-- Embedding of the legacy `Parser.collect_products`: pages 1 to 50, where
`pages p` is the (post-retry) decoded response of `scrape_page(page)` and
each page goes through `extract_product_data`. -/
def Legacy.collect_products (pages : Nat → Legacy.PageData) : HarvestRun Legacy.Card :=
  pageLoop (fun p => Legacy.extract_product_data (pages p)) 1 50

/-! ## Specification-side definitions

These definitions follow the words of the specification, not the source;
they exist to be compared with the embedded source functions. -/

/-- Modelled from the spec: the number of nodes of a catalogue forest that
carry both `name` and `url` (the count the spec says `flatten` emits). -/
def specCountNameUrl : CatForest → Nat
  | .nil => 0
  | .node name url _ _ childs rest =>
    (if name.isSome ∧ url.isSome then 1 else 0)
      + specCountNameUrl childs + specCountNameUrl rest

/-- Number of nodes the stable flattener actually emits: nodes carrying all
four of `name`, `url`, `shard`, `query`, counted only inside subtrees whose
ancestors also carry all four (a skipped node's subtree is never visited). -/
def specCountKept : CatForest → Nat
  | .nil => 0
  | .node name url shard query childs rest =>
    match name, url, shard, query with
    | some _, some _, some _, some _ => 1 + specCountKept childs + specCountKept rest
    | _, _, _, _ => specCountKept rest

/-- Pre-order projection of a forest to stable flat entries: every node
with all four fields contributes one entry, in pre-order, regardless of its
ancestors. -/
def specPreFlatS : CatForest → List Stable.Flat
  | .nil => []
  | .node name url shard query childs rest =>
    (match name, url, shard, query with
     | some n, some u, some s, some q => [⟨n, u, s, q⟩]
     | _, _, _, _ => [])
      ++ specPreFlatS childs ++ specPreFlatS rest

/-- Pre-order projection of a forest to legacy flat entries: every node
with `name` and `url` contributes one entry, in pre-order. -/
def specPreFlatL : CatForest → List Legacy.Flat
  | .nil => []
  | .node name url shard query childs rest =>
    (match name, url with
     | some n, some u => [⟨n, u, shard, query⟩]
     | _, _ => [])
      ++ specPreFlatL childs ++ specPreFlatL rest

/-- Every node of the forest carries both `name` and `url`. -/
def specAllNameUrl : CatForest → Bool
  | .nil => true
  | .node name url _ _ childs rest =>
    name.isSome && url.isSome && specAllNameUrl childs && specAllNameUrl rest

/-- Total number of nodes of a forest. -/
def specCountNodes : CatForest → Nat
  | .nil => 0
  | .node _ _ _ _ childs rest => 1 + specCountNodes childs + specCountNodes rest

/-- A sales fetch outcome that `get_sales_data` survives: either a
non-empty array whose first element has `qnt`, or a `ConnectTimeout`. -/
def specGoodSales : Except PyErr (List Stable.SalesObj) → Bool
  | .ok (o :: _) => o.qnt.isSome
  | .ok [] => false
  | .error e => e == .connectTimeout

/-- The enrichment `get_sales_data` performs on one card when its fetch
outcome is good: the first element's quantity, or the `'no data'` sentinel
on a connect timeout. -/
def specEnrich (fetch : Int → Except PyErr (List Stable.SalesObj))
    (c : Stable.Card) : Stable.SCard :=
  match fetch c.id with
  | .ok (⟨some q⟩ :: _) => ⟨c, .qnt q⟩
  | _ => ⟨c, .noData⟩

/-! ## Proofs -/

theorem isPrefixOf_append_self (l t : List Char) : l.isPrefixOf (l ++ t) = true := by
  induction l with
  | nil => simp [List.isPrefixOf]
  | cons c l ih => simp [List.isPrefixOf, ih]

theorem isPrefixOf_length_le {l t : List Char} (h : l.isPrefixOf t = true) :
    l.length ≤ t.length := by
  induction l generalizing t with
  | nil => simp
  | cons c l ih =>
    cases t with
    | nil => simp [List.isPrefixOf] at h
    | cons d t =>
      simp only [List.isPrefixOf, Bool.and_eq_true] at h
      simpa using ih h.2

theorem findOcc_nil {sep : List Char} (hsep : sep ≠ []) : findOcc sep [] = none := by
  simp [findOcc, List.isEmpty_iff, hsep]

theorem splitLastAux_nil {sep : List Char} (hsep : sep ≠ []) (f : Nat) :
    splitLastAux sep f [] = [] := by
  cases f with
  | zero => rfl
  | succ g => simp [splitLastAux, findOcc_nil hsep]

theorem findOcc_some_bound {sep s : List Char} {i : Nat}
    (hsep : sep ≠ []) (h : findOcc sep s = some i) :
    i + sep.length ≤ s.length := by
  induction s generalizing i with
  | nil => rw [findOcc_nil hsep] at h; exact absurd h (by simp)
  | cons c rest ih =>
    simp only [findOcc] at h
    split at h
    · cases h
      simpa using isPrefixOf_length_le (by assumption)
    · rcases Option.map_eq_some'.mp h with ⟨j, hj, rfl⟩
      have := ih hj
      simp only [List.length_cons]
      omega

theorem splitLastAux_fuel_congr {sep : List Char} (hsep : sep ≠ []) :
    ∀ f₁, ∀ s f₂, s.length ≤ f₁ → s.length ≤ f₂ →
      splitLastAux sep f₁ s = splitLastAux sep f₂ s := by
  intro f₁
  induction f₁ with
  | zero =>
    intro s f₂ h₁ _
    have hs : s = [] := by
      cases s with
      | nil => rfl
      | cons c r => simp at h₁
    subst hs
    rw [splitLastAux_nil hsep, splitLastAux_nil hsep]
  | succ f₁ ih =>
    intro s f₂ h₁ h₂
    cases s with
    | nil => rw [splitLastAux_nil hsep, splitLastAux_nil hsep]
    | cons c rest =>
      cases f₂ with
      | zero => simp at h₂
      | succ g =>
        simp only [splitLastAux]
        cases hocc : findOcc sep (c :: rest) with
        | none => rfl
        | some i =>
          have hb := findOcc_some_bound hsep hocc
          have hnz : 1 ≤ sep.length := by
            cases sep with
            | nil => exact absurd rfl hsep
            | cons a b => simp
          have hlen : ((c :: rest).drop (i + sep.length)).length ≤ rest.length := by
            simp only [List.length_drop, List.length_cons]
            omega
          have hr : rest.length ≤ f₁ := by simpa using h₁
          have hg : rest.length ≤ g := by simpa using h₂
          exact ih _ _ (le_trans hlen hr) (le_trans hlen hg)

theorem findOcc_append_self {P : List Char} (hP : P ≠ []) (s : List Char) :
    findOcc P (P ++ s) = some 0 := by
  cases P with
  | nil => exact absurd rfl hP
  | cons c P' =>
    have h := isPrefixOf_append_self (c :: P') s
    rw [List.cons_append] at h ⊢
    simp [findOcc, h]

theorem splitLastAux_append {P : List Char} (hP : P ≠ []) (s : List Char) :
    splitLastAux P (P ++ s).length (P ++ s) = splitLastAux P s.length s := by
  have hPlen : 1 ≤ P.length := by
    cases P with
    | nil => exact absurd rfl hP
    | cons a b => simp
  have hpos : 0 < (P ++ s).length := by simp; omega
  obtain ⟨m, hm⟩ : ∃ m, (P ++ s).length = m + 1 :=
    ⟨(P ++ s).length - 1, (Nat.succ_pred_eq_of_pos hpos).symm⟩
  rw [hm]
  have hunfold : splitLastAux P (m + 1) (P ++ s)
      = splitLastAux P m ((P ++ s).drop (0 + P.length)) := by
    simp only [splitLastAux, findOcc_append_self hP s]
  rw [hunfold, Nat.zero_add, List.drop_left]
  apply splitLastAux_fuel_congr hP
  · have : (P ++ s).length = P.length + s.length := by simp
    omega
  · exact Nat.le_refl _

/-- Stripping behaviour of the resolvers' url comparison: prepending the
site prefix to the user input does not change the compared suffix. -/
theorem wbSuffix_append (s : String) : wbSuffix (wbSite ++ s) = wbSuffix s := by
  have hP : wbSite.data ≠ [] := by decide
  show pySplitLast wbSite (wbSite ++ s) = pySplitLast wbSite s
  unfold pySplitLast
  rw [String.data_append]
  exact congrArg String.mk (splitLastAux_append hP s.data)

theorem Stable.traverse_json_eq (f : CatForest) :
    ∀ acc, Stable.traverse_json f acc = acc ++ Stable.flattenCat f := by
  induction f with
  | nil => intro acc; simp [Stable.traverse_json, Stable.flattenCat]
  | node name url shard query childs rest ihc ihr =>
    intro acc
    cases name <;> cases url <;> cases shard <;> cases query <;>
      simp [Stable.traverse_json, Stable.flattenCat, ihc, ihr]

theorem pageLoop_natural {α : Type} (step : Nat → Except PyErr (List α)) (ls : Nat → List α) :
    ∀ k start fuel, k + 1 ≤ fuel →
      (∀ i, i < k → step (start + i) = .ok (ls (start + i)) ∧ ls (start + i) ≠ []) →
      step (start + k) = .ok [] →
      pageLoop step start fuel
        = ⟨((List.range k).map fun i => ls (start + i)).flatten, k + 1, .naturalEnd⟩ := by
  intro k
  induction k with
  | zero =>
    intro start fuel hf _ hend
    cases fuel with
    | zero => omega
    | succ f =>
      rw [Nat.add_zero] at hend
      simp [pageLoop, hend]
  | succ k ih =>
    intro start fuel hf h1 hend
    cases fuel with
    | zero => omega
    | succ f =>
      have h0 := h1 0 (Nat.succ_pos k)
      rw [Nat.add_zero] at h0
      cases hls : ls start with
      | nil => exact absurd hls h0.2
      | cons a as =>
        have hstep : step start = .ok (a :: as) := by rw [h0.1, hls]
        have hrec := ih (start + 1) f (by omega)
          (fun i hi => by
            have := h1 (i + 1) (by omega)
            constructor
            · rw [show start + 1 + i = start + (i + 1) by omega]
              exact this.1
            · rw [show start + 1 + i = start + (i + 1) by omega]
              exact this.2)
          (by rw [show start + 1 + k = start + (k + 1) by omega]; exact hend)
        simp only [pageLoop, hstep, hrec]
        congr 1
        rw [← hls]
        have hmap : ((List.range (k + 1)).map fun i => ls (start + i))
            = ls start :: ((List.range k).map fun i => ls (start + 1 + i)) := by
          rw [List.range_succ_eq_map, List.map_cons, List.map_map]
          refine congrArg₂ _ (by rw [Nat.add_zero]) ?_
          refine List.map_congr_left fun i _ => ?_
          show ls (start + (i + 1)) = ls (start + 1 + i)
          rw [show start + (i + 1) = start + 1 + i by omega]
        rw [hmap, List.flatten_cons]

theorem pageLoop_ceiling {α : Type} (step : Nat → Except PyErr (List α)) (ls : Nat → List α) :
    ∀ fuel start,
      (∀ i, i < fuel → step (start + i) = .ok (ls (start + i)) ∧ ls (start + i) ≠ []) →
      pageLoop step start fuel
        = ⟨((List.range fuel).map fun i => ls (start + i)).flatten, fuel, .ceilingReached⟩ := by
  intro fuel
  induction fuel with
  | zero => intro start _; simp [pageLoop]
  | succ f ih =>
    intro start h1
    have h0 := h1 0 (Nat.succ_pos f)
    rw [Nat.add_zero] at h0
    cases hls : ls start with
    | nil => exact absurd hls h0.2
    | cons a as =>
      have hstep : step start = .ok (a :: as) := by rw [h0.1, hls]
      have hrec := ih (start + 1)
        (fun i hi => by
          have := h1 (i + 1) (by omega)
          constructor
          · rw [show start + 1 + i = start + (i + 1) by omega]
            exact this.1
          · rw [show start + 1 + i = start + (i + 1) by omega]
            exact this.2)
      simp only [pageLoop, hstep, hrec]
      congr 1
      rw [← hls]
      have hmap : ((List.range (f + 1)).map fun i => ls (start + i))
          = ls start :: ((List.range f).map fun i => ls (start + 1 + i)) := by
        rw [List.range_succ_eq_map, List.map_cons, List.map_map]
        refine congrArg₂ _ (by rw [Nat.add_zero]) ?_
        refine List.map_congr_left fun i _ => ?_
        show ls (start + (i + 1)) = ls (start + 1 + i)
        rw [show start + (i + 1) = start + 1 + i by omega]
      rw [hmap, List.flatten_cons]

theorem pageLoop_abort {α : Type} (step : Nat → Except PyErr (List α)) (ls : Nat → List α) :
    ∀ j start fuel e, j < fuel →
      (∀ i, i < j → step (start + i) = .ok (ls (start + i)) ∧ ls (start + i) ≠ []) →
      step (start + j) = .error e →
      pageLoop step start fuel
        = ⟨((List.range j).map fun i => ls (start + i)).flatten, j + 1, .aborted e⟩ := by
  intro j
  induction j with
  | zero =>
    intro start fuel e hf _ herr
    cases fuel with
    | zero => omega
    | succ f =>
      rw [Nat.add_zero] at herr
      simp [pageLoop, herr]
  | succ j ih =>
    intro start fuel e hf h1 herr
    cases fuel with
    | zero => omega
    | succ f =>
      have h0 := h1 0 (Nat.succ_pos j)
      rw [Nat.add_zero] at h0
      cases hls : ls start with
      | nil => exact absurd hls h0.2
      | cons a as =>
        have hstep : step start = .ok (a :: as) := by rw [h0.1, hls]
        have hrec := ih (start + 1) f e (by omega)
          (fun i hi => by
            have := h1 (i + 1) (by omega)
            constructor
            · rw [show start + 1 + i = start + (i + 1) by omega]
              exact this.1
            · rw [show start + 1 + i = start + (i + 1) by omega]
              exact this.2)
          (by rw [show start + 1 + j = start + (j + 1) by omega]; exact herr)
        simp only [pageLoop, hstep, hrec]
        congr 1
        rw [← hls]
        have hmap : ((List.range (j + 1)).map fun i => ls (start + i))
            = ls start :: ((List.range j).map fun i => ls (start + 1 + i)) := by
          rw [List.range_succ_eq_map, List.map_cons, List.map_map]
          refine congrArg₂ _ (by rw [Nat.add_zero]) ?_
          refine List.map_congr_left fun i _ => ?_
          show ls (start + (i + 1)) = ls (start + 1 + i)
          rw [show start + (i + 1) = start + 1 + i by omega]
        rw [hmap, List.flatten_cons]

theorem Stable.category_loop_eq (fetch : Nat → Except PyErr Stable.PageData) :
    ∀ fuel p, Stable.category_loop fetch p fuel
      = pageLoop (fun q => (fetch q).bind Stable.get_products_on_page) p fuel := by
  intro fuel
  induction fuel with
  | zero => intro p; rfl
  | succ f ih =>
    intro p
    cases hresp : fetch p with
    | error e =>
      simp [Stable.category_loop, Stable.add_data_from_page, pageLoop, hresp, Except.bind]
    | ok pd =>
      cases hparse : Stable.get_products_on_page pd with
      | error e =>
        simp [Stable.category_loop, Stable.add_data_from_page, pageLoop, hresp, hparse,
          Except.bind]
      | ok cards =>
        cases cards with
        | nil =>
          simp [Stable.category_loop, Stable.add_data_from_page, pageLoop, hresp, hparse,
            Except.bind]
        | cons a as =>
          simp [Stable.category_loop, Stable.add_data_from_page, pageLoop, hresp, hparse,
            Except.bind, ih]

theorem Stable.extract_category_data_first (l : List Stable.Flat) (q : String)
    (r : String × String × String) :
    Stable.extract_category_data l q = some r ↔
      ∃ pre c post, l = pre ++ c :: post
        ∧ (wbSuffix q = c.url ∨ q = c.name)
        ∧ (∀ b ∈ pre, ¬(wbSuffix q = b.url ∨ q = b.name))
        ∧ r = (c.name, c.shard, c.query) := by
  induction l with
  | nil =>
    constructor
    · intro h
      exact absurd h (by simp [Stable.extract_category_data])
    · rintro ⟨pre, c, post, hl, -⟩
      exact absurd hl (by cases pre <;> simp)
  | cons a l ih =>
    by_cases hm : wbSuffix q = a.url ∨ q = a.name
    · constructor
      · intro h
        have hv : some (a.name, a.shard, a.query) = some r := by
          rw [← h]
          simp [Stable.extract_category_data, hm]
        exact ⟨[], a, l, rfl, hm, by simp, (Option.some.inj hv).symm⟩
      · rintro ⟨pre, c, post, hl, hc, hpre, hr⟩
        cases pre with
        | nil =>
          simp only [List.nil_append, List.cons.injEq] at hl
          subst hr
          rw [← hl.1]
          simp [Stable.extract_category_data, hm]
        | cons b pre' =>
          simp only [List.cons_append, List.cons.injEq] at hl
          exact absurd (hl.1 ▸ hm) (hpre b (by simp))
    · have hstep : Stable.extract_category_data (a :: l) q
          = Stable.extract_category_data l q := by
        simp [Stable.extract_category_data, hm]
      rw [hstep, ih]
      constructor
      · rintro ⟨pre, c, post, hl, hc, hpre, hr⟩
        refine ⟨a :: pre, c, post, by rw [hl, List.cons_append], hc, ?_, hr⟩
        intro b hb
        rcases List.mem_cons.mp hb with rfl | hb
        · exact hm
        · exact hpre b hb
      · rintro ⟨pre, c, post, hl, hc, hpre, hr⟩
        cases pre with
        | nil =>
          simp only [List.nil_append, List.cons.injEq] at hl
          exact absurd (hl.1 ▸ hc) hm
        | cons b pre' =>
          simp only [List.cons_append, List.cons.injEq] at hl
          exact ⟨pre', c, post, hl.2, hc, fun b' hb' => hpre b' (by simp [hb']), hr⟩

theorem Legacy.find_category_first (l : List Legacy.Flat) (url : String)
    (r : Legacy.Flat) :
    Legacy.find_category_in_catalog l url = .ok r ↔
      ∃ pre c post, l = pre ++ c :: post
        ∧ c.url = wbSuffix url
        ∧ (∀ b ∈ pre, ¬b.url = wbSuffix url)
        ∧ r = c := by
  induction l with
  | nil =>
    constructor
    · intro h
      exact absurd h (by simp [Legacy.find_category_in_catalog])
    · rintro ⟨pre, c, post, hl, -⟩
      exact absurd hl (by cases pre <;> simp)
  | cons a l ih =>
    by_cases hm : a.url = wbSuffix url
    · constructor
      · intro h
        have hv : Except.ok (ε := PyErr) a = .ok r := by
          rw [← h]
          simp [Legacy.find_category_in_catalog, hm]
        exact ⟨[], a, l, rfl, hm, by simp, (by injection hv with h2; exact h2.symm)⟩
      · rintro ⟨pre, c, post, hl, hc, hpre, hr⟩
        cases pre with
        | nil =>
          simp only [List.nil_append, List.cons.injEq] at hl
          subst hr
          rw [← hl.1]
          simp [Legacy.find_category_in_catalog, hm]
        | cons b pre' =>
          simp only [List.cons_append, List.cons.injEq] at hl
          exact absurd (hl.1 ▸ hm) (hpre b (by simp))
    · have hstep : Legacy.find_category_in_catalog (a :: l) url
          = Legacy.find_category_in_catalog l url := by
        simp [Legacy.find_category_in_catalog, hm]
      rw [hstep, ih]
      constructor
      · rintro ⟨pre, c, post, hl, hc, hpre, hr⟩
        refine ⟨a :: pre, c, post, by rw [hl, List.cons_append], hc, ?_, hr⟩
        intro b hb
        rcases List.mem_cons.mp hb with rfl | hb
        · exact hm
        · exact hpre b hb
      · rintro ⟨pre, c, post, hl, hc, hpre, hr⟩
        cases pre with
        | nil =>
          simp only [List.nil_append, List.cons.injEq] at hl
          exact absurd (hl.1 ▸ hc) hm
        | cons b pre' =>
          simp only [List.cons_append, List.cons.injEq] at hl
          exact ⟨pre', c, post, hl.2, hc, fun b' hb' => hpre b' (by simp [hb']), hr⟩

theorem Stable.flattenCat_length (f : CatForest) :
    (Stable.flattenCat f).length = specCountKept f := by
  induction f with
  | nil => simp [Stable.flattenCat, specCountKept]
  | node name url shard query childs rest ihc ihr =>
    cases name <;> cases url <;> cases shard <;> cases query <;>
      (simp [Stable.flattenCat, specCountKept, ihc, ihr]; try omega)

theorem Stable.flattenCat_sublist (f : CatForest) :
    (Stable.flattenCat f).Sublist (specPreFlatS f) := by
  induction f with
  | nil => simp [Stable.flattenCat, specPreFlatS]
  | node name url shard query childs rest ihc ihr =>
    cases name <;> cases url <;> cases shard <;> cases query <;>
      simp only [Stable.flattenCat, specPreFlatS, List.nil_append, List.cons_append] <;>
      first
        | exact ihr.trans (List.sublist_append_right _ _)
        | exact (ihc.append ihr).cons₂ _

theorem Legacy.extract_ok_preorder (f : CatForest) :
    ∀ l, Legacy.extract_category_data f = .ok l → l = specPreFlatL f := by
  induction f with
  | nil =>
    intro l h
    injection h with h
    rw [← h]
    rfl
  | node name url shard query childs rest ihc ihr =>
    intro l h
    cases name with
    | none => exact absurd h (by simp [Legacy.extract_category_data])
    | some n =>
      cases url with
      | none => exact absurd h (by simp [Legacy.extract_category_data])
      | some u =>
        simp only [Legacy.extract_category_data] at h
        cases hc : Legacy.extract_category_data childs with
        | error e => rw [hc] at h; exact absurd h (by simp)
        | ok c =>
          rw [hc] at h
          cases hr : Legacy.extract_category_data rest with
          | error e => rw [hr] at h; exact absurd h (by simp)
          | ok r =>
            rw [hr] at h
            injection h with h
            rw [← h, ihc c hc, ihr r hr]
            simp [specPreFlatL]

theorem Legacy.extract_allNameUrl (f : CatForest) :
    specAllNameUrl f = true →
      ∃ l, Legacy.extract_category_data f = .ok l ∧ l.length = specCountNodes f := by
  induction f with
  | nil => intro _; exact ⟨[], rfl, rfl⟩
  | node name url shard query childs rest ihc ihr =>
    intro h
    simp only [specAllNameUrl, Bool.and_eq_true] at h
    obtain ⟨⟨⟨hn, hu⟩, hc⟩, hr⟩ := h
    obtain ⟨n, rfl⟩ := Option.isSome_iff_exists.mp hn
    obtain ⟨u, rfl⟩ := Option.isSome_iff_exists.mp hu
    obtain ⟨lc, hlc, hlenc⟩ := ihc hc
    obtain ⟨lr, hlr, hlenr⟩ := ihr hr
    refine ⟨⟨n, u, shard, query⟩ :: (lc ++ lr), ?_, ?_⟩
    · simp [Legacy.extract_category_data, hlc, hlr]
    · simp [specCountNodes, hlenc, hlenr]
      omega

theorem Stable.get_sales_data_good (fetch : Int → Except PyErr (List Stable.SalesObj)) :
    ∀ cards : List Stable.Card,
      (∀ c ∈ cards, specGoodSales (fetch c.id) = true) →
      Stable.get_sales_data fetch cards = .ok (cards.map (specEnrich fetch)) := by
  intro cards
  induction cards with
  | nil => intro _; rfl
  | cons c rest ih =>
    intro h
    have hc := h c (by simp)
    have hrest := ih (fun b hb => h b (by simp [hb]))
    cases hf : fetch c.id with
    | ok arr =>
      cases arr with
      | nil => rw [hf] at hc; exact absurd hc (by simp [specGoodSales])
      | cons o os =>
        rw [hf] at hc
        obtain ⟨q, hq⟩ := Option.isSome_iff_exists.mp (by simpa [specGoodSales] using hc)
        cases o with
        | mk qnt =>
          cases hq
          simp [Stable.get_sales_data, Stable.sales_step, hf, hrest, specEnrich,
            List.map_cons, Except.map]
    | error e =>
      rw [hf] at hc
      have he : e = .connectTimeout := by simpa [specGoodSales] using hc
      subst he
      simp [Stable.get_sales_data, Stable.sales_step, hf, hrest, specEnrich, List.map_cons,
        Except.map]

/-! ## Claim C6 -/

/-- C6 counterexample: on a response lacking the `data` container, both
parsers raise Python's generic `KeyError('data')` from the subscription
`page_data['data']`; neither script defines or raises any dedicated
`SchemaError`, so the failure is exactly the same generic lookup error that
any missing dict key produces (compare the `products` case). -/
theorem c6_counterexample :
    Stable.get_products_on_page ⟨none⟩ = .error (.keyError "data")
      ∧ Legacy.extract_product_data ⟨none⟩ = .error (.keyError "data")
      ∧ Stable.get_products_on_page ⟨some ⟨none⟩⟩ = .error (.keyError "products") := by
  exact ⟨rfl, rfl, rfl⟩

/-- C6 amended: for every page response, parse returns an empty sequence
without raising when the listing container is present with zero products
(`data.products = []`), and raises Python's generic `KeyError` (there is no
dedicated `SchemaError`) when the response lacks the listing container
entirely; this holds in both versions. -/
theorem c6_schema_amended :
    (∀ pd : Stable.PageData, pd.data = none →
        Stable.get_products_on_page pd = .error (.keyError "data"))
      ∧ Stable.get_products_on_page ⟨some ⟨some []⟩⟩ = .ok []
      ∧ (∀ pd : Legacy.PageData, pd.data = none →
          Legacy.extract_product_data pd = .error (.keyError "data"))
      ∧ Legacy.extract_product_data ⟨some ⟨some []⟩⟩ = .ok [] := by
  refine ⟨?_, rfl, ?_, rfl⟩
  · intro pd h
    simp [Stable.get_products_on_page, h]
  · intro pd h
    simp [Legacy.extract_product_data, h]

/-- C6 witness: the amended theorem applied to the response with no `data`
key and to the response with an empty product list. -/
theorem c6_witness :
    Stable.get_products_on_page ⟨none⟩ = .error (.keyError "data")
      ∧ Legacy.extract_product_data ⟨none⟩ = .error (.keyError "data") :=
  ⟨c6_schema_amended.1 ⟨none⟩ rfl, c6_schema_amended.2.2.1 ⟨none⟩ rfl⟩

/-! ## Claim C7 -/

/-- C7 counterexample: Python's `int(value / 100)` truncates toward zero,
which does not equal `floor(value / 100)` for a negative minor-unit value:
at `priceU = -123456` the code derives `-1234` while the floor is `-1235`.
(The claim quantifies over every integer value and identifies the
conversion with `floor`.) -/
theorem c7_counterexample :
    (Stable.toCard ⟨7, "n", "b", 3, -123456, -123456, 4, 5⟩).price = -1234
      ∧ Int.fdiv (-123456) 100 = -1235
      ∧ (Stable.toCard ⟨7, "n", "b", 3, -123456, -123456, 4, 5⟩).price
          ≠ Int.fdiv (-123456) 100 := by
  refine ⟨?_, by decide, by decide⟩
  show Int.tdiv (-123456) 100 = -1234
  decide

/-- C7 amended: for every non-negative integer minor-unit price value the
derived major-unit price equals `floor(value / 100)` (the code truncates
toward zero, which coincides with floor exactly on non-negative values),
and the same conversion is applied to both the full price and the
discounted price of every parsed product, in both versions. -/
theorem c7_truncation_amended :
    (∀ i : Stable.Item, 0 ≤ i.priceU →
        (Stable.toCard i).price = Int.fdiv i.priceU 100)
      ∧ (∀ i : Stable.Item, 0 ≤ i.salePriceU →
          (Stable.toCard i).discountedPrice = Int.fdiv i.salePriceU 100)
      ∧ (∀ (i : Legacy.Item) (p sp : Int) (c : Legacy.Card),
          i.priceU = some p → i.salePriceU = some sp → Legacy.toCard i = .ok c →
          0 ≤ p → 0 ≤ sp →
          c.price = Int.fdiv p 100 ∧ c.salePriceU = Int.fdiv sp 100) := by
  have key : ∀ x : Int, 0 ≤ x → Int.tdiv x 100 = Int.fdiv x 100 := by
    intro x hx
    rw [Int.tdiv_eq_ediv hx (by norm_num), Int.fdiv_eq_ediv _ (by norm_num)]
  refine ⟨?_, ?_, ?_⟩
  · intro i h
    exact key i.priceU h
  · intro i h
    exact key i.salePriceU h
  · intro i p sp c hp hsp hc h0p h0sp
    simp only [Legacy.toCard, hp, hsp] at hc
    injection hc with hc
    constructor
    · rw [← hc]
      exact key p h0p
    · rw [← hc]
      exact key sp h0sp

/-- C7 witness: the amended theorem applied at the specification's own
example `priceU = 123456`, whose derived major price is `1234`. -/
theorem c7_witness :
    (Stable.toCard ⟨7, "n", "b", 3, 123456, 123456, 4, 5⟩).price = Int.fdiv 123456 100
      ∧ Int.fdiv 123456 100 = 1234 :=
  ⟨c7_truncation_amended.1 ⟨7, "n", "b", 3, 123456, 123456, 4, 5⟩ (by decide), by decide⟩

/-! ## Claim C2 -/

/-- C2 counterexample: a forest with two nodes carrying both `name` and
`url` (a fully-populated grandchild and a sibling that merely lacks
`shard`/`query`) for which the stable flattener emits nothing: the root
lacks `name`, so the `continue` also skips its fully-populated child, and
the sibling is skipped because `category['shard']` raises.  The claim's
count is 2, the emitted length is 0. -/
theorem c2_counterexample :
    Stable.traverse_json
        (.node none (some "/x") (some "s") (some "q")
          (.node (some "C") (some "/c") (some "cs") (some "cq") .nil .nil)
          (.node (some "B") (some "/b") none none .nil .nil)) []
      = ([] : List Stable.Flat)
      ∧ specCountNameUrl
          (.node none (some "/x") (some "s") (some "q")
            (.node (some "C") (some "/c") (some "cs") (some "cq") .nil .nil)
            (.node (some "B") (some "/b") none none .nil .nil)) = 2 := by
  exact ⟨rfl, rfl⟩

/-- C2 amended: in the stable version, `flatten` emits exactly one entry
per node that carries all four of `name`, `url`, `shard`, `query` and all
of whose ancestors also carry all four; a node missing any of the four is
skipped without raising, its entire subtree is skipped with it, and its
siblings are still traversed.  In the legacy version a node missing `name`
(or `url`) raises a `KeyError` that aborts the whole walk, while a forest
whose nodes all carry `name` and `url` flattens to one entry per node. -/
theorem c2_flatten_amended :
    (∀ (f : CatForest) (acc : List Stable.Flat),
        (Stable.traverse_json f acc).length = acc.length + specCountKept f)
      ∧ (∀ (name url shard query : Option String) (childs rest : CatForest)
            (acc : List Stable.Flat),
          (name = none ∨ url = none ∨ shard = none ∨ query = none) →
          Stable.traverse_json (.node name url shard query childs rest) acc
            = Stable.traverse_json rest acc)
      ∧ (∀ (url shard query : Option String) (childs rest : CatForest),
          Legacy.extract_category_data (.node none url shard query childs rest)
            = .error (.keyError "name"))
      ∧ (∀ f : CatForest, specAllNameUrl f = true →
          ∃ l, Legacy.extract_category_data f = .ok l ∧ l.length = specCountNodes f) := by
  refine ⟨?_, ?_, ?_, Legacy.extract_allNameUrl⟩
  · intro f acc
    rw [Stable.traverse_json_eq]
    simp [Stable.flattenCat_length]
  · intro name url shard query childs rest acc h
    rcases h with rfl | rfl | rfl | rfl
    · cases url <;> cases shard <;> cases query <;> rfl
    · cases name <;> cases shard <;> cases query <;> rfl
    · cases name <;> cases url <;> cases query <;> rfl
    · cases name <;> cases url <;> cases shard <;> rfl
  · intro url shard query childs rest
    cases url <;> rfl

/-- C2 witness: the amended theorem applied to a node missing `query`
(skipped, siblings still flattened) and to a concrete fully-keyed forest
for the legacy walk. -/
theorem c2_witness :
    Stable.traverse_json
        (.node (some "A") (some "/a") (some "s") none .nil
          (.node (some "B") (some "/b") (some "bs") (some "bq") .nil .nil)) []
      = Stable.traverse_json
          (.node (some "B") (some "/b") (some "bs") (some "bq") .nil .nil) []
      ∧ ∃ l, Legacy.extract_category_data
            (.node (some "A") (some "/a") none none .nil .nil) = .ok l
          ∧ l.length = specCountNodes (.node (some "A") (some "/a") none none .nil .nil) :=
  ⟨c2_flatten_amended.2.1 (some "A") (some "/a") (some "s") none .nil
      (.node (some "B") (some "/b") (some "bs") (some "bq") .nil .nil) []
      (Or.inr (Or.inr (Or.inr rfl))),
    c2_flatten_amended.2.2.2 (.node (some "A") (some "/a") none none .nil .nil)
      (by decide)⟩

/-! ## Claim C9 -/

/-- C9: the output order of the flatteners equals the pre-order traversal
of the source tree.  In the stable version an emitted node's own entry
immediately precedes its subtree's entries, which precede its sibling
subtrees' entries, and the whole output is an order-preserving selection
from the pre-order projection of the forest; in the legacy version a
successful walk returns exactly the pre-order projection. -/
theorem c9_preorder :
    (∀ (n u s q : String) (childs rest : CatForest) (acc : List Stable.Flat),
        Stable.traverse_json (.node (some n) (some u) (some s) (some q) childs rest) acc
          = acc ++ ⟨n, u, s, q⟩
              :: (Stable.traverse_json childs [] ++ Stable.traverse_json rest []))
      ∧ (∀ f : CatForest, (Stable.traverse_json f []).Sublist (specPreFlatS f))
      ∧ (∀ (f : CatForest) (l : List Legacy.Flat),
          Legacy.extract_category_data f = .ok l → l = specPreFlatL f) := by
  refine ⟨?_, ?_, Legacy.extract_ok_preorder⟩
  · intro n u s q childs rest acc
    rw [Stable.traverse_json_eq, Stable.traverse_json_eq, Stable.traverse_json_eq]
    simp [Stable.flattenCat]
  · intro f
    rw [Stable.traverse_json_eq]
    simpa using Stable.flattenCat_sublist f

/-- C9 witness: the pre-order equation applied to a concrete two-level
forest, and the legacy projection applied to a concrete walk result. -/
theorem c9_witness :
    Stable.traverse_json
        (.node (some "A") (some "/a") (some "s") (some "q")
          (.node (some "C") (some "/c") (some "cs") (some "cq") .nil .nil)
          (.node (some "B") (some "/b") (some "bs") (some "bq") .nil .nil)) []
      = [] ++ (⟨"A", "/a", "s", "q"⟩ : Stable.Flat)
          :: (Stable.traverse_json
                (.node (some "C") (some "/c") (some "cs") (some "cq") .nil .nil) []
              ++ Stable.traverse_json
                  (.node (some "B") (some "/b") (some "bs") (some "bq") .nil .nil) [])
      ∧ [(⟨"A", "/a", none, none⟩ : Legacy.Flat)]
          = specPreFlatL (.node (some "A") (some "/a") none none .nil .nil) :=
  ⟨c9_preorder.1 "A" "/a" "s" "q"
      (.node (some "C") (some "/c") (some "cs") (some "cq") .nil .nil)
      (.node (some "B") (some "/b") (some "bs") (some "bq") .nil .nil) [],
    c9_preorder.2.2 (.node (some "A") (some "/a") none none .nil .nil)
      [⟨"A", "/a", none, none⟩] rfl⟩

/-! ## Claim C3 -/

/-- C3 counterexample: the legacy resolver never compares the query against
category names.  For a catalogue containing a category named `Shoes`
(url `/obuv`) and the query `Shoes`, the claim requires that candidate to
be returned, but `find_category_in_catalog` raises `ValueError`. -/
theorem c3_counterexample :
    Legacy.find_category_in_catalog [⟨"Shoes", "/obuv", some "sh", some "qq"⟩] "Shoes"
      = .error .valueError
      ∧ (⟨"Shoes", "/obuv", some "sh", some "qq"⟩ : Legacy.Flat).name = "Shoes" := by
  exact ⟨rfl, rfl⟩

/-- C3 amended: the stable resolver examines candidates in flattened
sequence order and returns the first whose `url` equals the query's
stripped suffix or whose `name` equals the query exactly (so among entries
sharing a name the earlier one wins); the legacy resolver does the same but
matches only on `url`, never on `name`. -/
theorem c3_first_match_amended :
    (∀ (l : List Stable.Flat) (q : String) (r : String × String × String),
        Stable.extract_category_data l q = some r ↔
          ∃ pre c post, l = pre ++ c :: post
            ∧ (wbSuffix q = c.url ∨ q = c.name)
            ∧ (∀ b ∈ pre, ¬(wbSuffix q = b.url ∨ q = b.name))
            ∧ r = (c.name, c.shard, c.query))
      ∧ (∀ (l : List Legacy.Flat) (url : String) (r : Legacy.Flat),
          Legacy.find_category_in_catalog l url = .ok r ↔
            ∃ pre c post, l = pre ++ c :: post
              ∧ c.url = wbSuffix url
              ∧ (∀ b ∈ pre, ¬b.url = wbSuffix url)
              ∧ r = c) :=
  ⟨Stable.extract_category_data_first, Legacy.find_category_first⟩

/-- C3 witness: among two entries named `Shoes` the stable resolver returns
the one earlier in the flattened order. -/
theorem c3_witness :
    Stable.extract_category_data
        [⟨"Bags", "/bags", "s1", "q1"⟩, ⟨"Shoes", "/obuv", "s2", "q2"⟩,
          ⟨"Shoes", "/shoes2", "s3", "q3"⟩] "Shoes"
      = some ("Shoes", "s2", "q2") :=
  (c3_first_match_amended.1 _ "Shoes" _).mpr
    ⟨[⟨"Bags", "/bags", "s1", "q1"⟩], ⟨"Shoes", "/obuv", "s2", "q2"⟩,
      [⟨"Shoes", "/shoes2", "s3", "q3"⟩], rfl, Or.inr rfl, by decide, rfl⟩

/-! ## Claim C10 -/

/-- C10 counterexample: with a single category named `Shoes` and
`s = "Shoes"`, no candidate's name equals the prefixed string, yet
resolving the prefixed input returns nothing while resolving `s` alone
matches the candidate by name. -/
theorem c10_counterexample :
    Stable.extract_category_data [⟨"Shoes", "/obuv", "sh", "qq"⟩] (wbSite ++ "Shoes")
        = none
      ∧ Stable.extract_category_data [⟨"Shoes", "/obuv", "sh", "qq"⟩] "Shoes"
          = some ("Shoes", "sh", "qq")
      ∧ (⟨"Shoes", "/obuv", "sh", "qq"⟩ : Stable.Flat).name ≠ wbSite ++ "Shoes" := by
  exact ⟨by decide, by decide, by decide⟩

/-- C10 amended: url matching compares each candidate's `url` against the
portion of the user input after the last occurrence of the literal site
prefix, so for every flattened list in which no candidate's name equals the
full prefixed string NOR the bare string `s`, resolving the prefixed input
returns the same result as resolving `s` alone (the name clause can fire
for `s` but never for the prefixed input, hence the extra condition). -/
theorem c10_prefix_invariance_amended :
    ∀ (l : List Stable.Flat) (s : String),
      (∀ c ∈ l, c.name ≠ wbSite ++ s) → (∀ c ∈ l, c.name ≠ s) →
      Stable.extract_category_data l (wbSite ++ s)
        = Stable.extract_category_data l s := by
  intro l s
  induction l with
  | nil => intro _ _; rfl
  | cons a l ih =>
    intro h1 h2
    have hn1 : ¬(wbSite ++ s = a.name) := fun h => h1 a (by simp) h.symm
    have hn2 : ¬(s = a.name) := fun h => h2 a (by simp) h.symm
    have hrec := ih (fun c hc => h1 c (List.mem_cons_of_mem a hc))
      (fun c hc => h2 c (List.mem_cons_of_mem a hc))
    by_cases hu : wbSuffix s = a.url
    · simp [Stable.extract_category_data, wbSuffix_append, hu]
    · simp [Stable.extract_category_data, wbSuffix_append, hu, hn1, hn2, hrec]

/-- C10 witness: the amended theorem applied to a concrete catalogue and a
url-suffix query. -/
theorem c10_witness :
    Stable.extract_category_data [⟨"Bags", "/bags", "s1", "q1"⟩] (wbSite ++ "/bags")
      = Stable.extract_category_data [⟨"Bags", "/bags", "s1", "q1"⟩] "/bags" :=
  c10_prefix_invariance_amended _ "/bags" (by decide) (by decide)

/-! ## Claim C8 -/

/-- C8 counterexample: `get_sales_data` catches only
`requests.ConnectTimeout`.  A read timeout on the second of three cards
propagates and aborts the whole enrichment instead of attaching the
sentinel and continuing, so the function does not return all three
records. -/
theorem c8_counterexample :
    Stable.get_sales_data
        (fun i => if i = 2 then .error .readTimeout else .ok [⟨some 5⟩])
        [⟨"l1", 1, "n1", "b", 1, 1, 1, 1, 1⟩, ⟨"l2", 2, "n2", "b", 2, 2, 2, 2, 2⟩,
          ⟨"l3", 3, "n3", "b", 3, 3, 3, 3, 3⟩]
      = .error .readTimeout := by
  rfl

/-- C8 amended: enrichment attempts a follow-up fetch for each record in
order; a `ConnectTimeout` on one item attaches the `'no data'` sentinel to
that item and continues, and when every item's fetch either succeeds (with
a non-empty array carrying `qnt`) or raises `ConnectTimeout`, all N records
are returned with the non-timeout items enriched from their responses.
Any other per-item failure (read timeout, connection error, malformed body,
empty array, missing `qnt`) propagates and aborts the remaining items. -/
theorem c8_enrichment_amended :
    (∀ (fetch : Int → Except PyErr (List Stable.SalesObj)) (cards : List Stable.Card),
        (∀ c ∈ cards, specGoodSales (fetch c.id) = true) →
        Stable.get_sales_data fetch cards = .ok (cards.map (specEnrich fetch)))
      ∧ (∀ (fetch : Int → Except PyErr (List Stable.SalesObj)) (cards : List Stable.Card),
          (cards.map (specEnrich fetch)).length = cards.length) :=
  ⟨Stable.get_sales_data_good, fun _ _ => by simp⟩

/-- C8 witness: three cards where the second card's fetch raises
`ConnectTimeout`: all three records come back, the second with the
sentinel. -/
theorem c8_witness :
    Stable.get_sales_data
        (fun i => if i = 2 then .error .connectTimeout else .ok [⟨some 5⟩])
        [⟨"l1", 1, "n1", "b", 1, 1, 1, 1, 1⟩, ⟨"l2", 2, "n2", "b", 2, 2, 2, 2, 2⟩,
          ⟨"l3", 3, "n3", "b", 3, 3, 3, 3, 3⟩]
      = .ok (([⟨"l1", 1, "n1", "b", 1, 1, 1, 1, 1⟩, ⟨"l2", 2, "n2", "b", 2, 2, 2, 2, 2⟩,
          ⟨"l3", 3, "n3", "b", 3, 3, 3, 3, 3⟩] : List Stable.Card).map
            (specEnrich (fun i => if i = 2 then .error .connectTimeout
              else .ok [⟨some 5⟩]))) :=
  c8_enrichment_amended.1 _ _ (by decide)

/-! ## Claim C4 -/

/-- C4: when pages 1..k each parse to a non-empty record list and page k+1
parses to an empty list (with k below the page ceiling: 100 in the stable
version, 50 in the legacy version), the harvest performs exactly k+1 page
fetches, terminates by the empty-page break, and returns the concatenation
of the per-page record lists in page order then in-page order. -/
theorem c4_natural_termination :
    (∀ (fetch : Nat → Except PyErr Stable.PageData) (ls : Nat → List Stable.Card)
        (k : Nat), k + 1 ≤ 100 →
        (∀ i, 1 ≤ i → i ≤ k + 1 →
          (fetch i).bind Stable.get_products_on_page = .ok (ls i)) →
        (∀ i, 1 ≤ i → i ≤ k → ls i ≠ []) →
        ls (k + 1) = [] →
        Stable.get_all_products_in_category fetch
          = ⟨((List.range k).map fun i => ls (1 + i)).flatten, k + 1, .naturalEnd⟩)
      ∧ (∀ (pages : Nat → Legacy.PageData) (ls : Nat → List Legacy.Card)
          (k : Nat), k + 1 ≤ 50 →
          (∀ i, 1 ≤ i → i ≤ k + 1 → Legacy.extract_product_data (pages i) = .ok (ls i)) →
          (∀ i, 1 ≤ i → i ≤ k → ls i ≠ []) →
          ls (k + 1) = [] →
          Legacy.collect_products pages
            = ⟨((List.range k).map fun i => ls (1 + i)).flatten, k + 1, .naturalEnd⟩) := by
  constructor
  · intro fetch ls k hk hparse hne hempty
    show Stable.category_loop fetch 1 100 = _
    rw [Stable.category_loop_eq]
    exact pageLoop_natural _ ls k 1 100 hk
      (fun i hi => ⟨hparse (1 + i) (by omega) (by omega),
        hne (1 + i) (by omega) (by omega)⟩)
      (by
        have h := hparse (1 + k) (by omega) (by omega)
        rw [show (1 + k) = k + 1 by omega] at h
        rw [show (1 + k) = k + 1 by omega]
        rw [h, hempty])
  · intro pages ls k hk hparse hne hempty
    show pageLoop _ 1 50 = _
    exact pageLoop_natural _ ls k 1 50 hk
      (fun i hi => ⟨hparse (1 + i) (by omega) (by omega),
        hne (1 + i) (by omega) (by omega)⟩)
      (by
        have h := hparse (1 + k) (by omega) (by omega)
        rw [show (1 + k) = k + 1 by omega] at h
        rw [show (1 + k) = k + 1 by omega]
        rw [h, hempty])

/-- C4 witness: one non-empty page followed by an empty page 2 gives
exactly 2 fetches and the one page of records. -/
theorem c4_witness :
    Stable.get_all_products_in_category
        (fun p => .ok ⟨some ⟨some (if p = 1 then [⟨7, "n", "b", 3, 100, 90, 4, 5⟩] else [])⟩⟩)
      = ⟨((List.range 1).map fun i =>
            (fun p => if p = 1 then [Stable.toCard ⟨7, "n", "b", 3, 100, 90, 4, 5⟩]
              else []) (1 + i)).flatten,
          2, .naturalEnd⟩ :=
  c4_natural_termination.1
    (fun p => .ok ⟨some ⟨some (if p = 1 then [⟨7, "n", "b", 3, 100, 90, 4, 5⟩] else [])⟩⟩)
    (fun p => if p = 1 then [Stable.toCard ⟨7, "n", "b", 3, 100, 90, 4, 5⟩] else [])
    1 (by omega)
    (by
      intro i h1 h2
      have : i = 1 ∨ i = 2 := by omega
      rcases this with rfl | rfl <;> rfl)
    (by
      intro i h1 h2
      have : i = 1 := by omega
      subst this
      simp)
    (by simp)

/-! ## Claim C5 -/

/-- C5 counterexample: termination by the page ceiling is not reported to
the caller distinctly from the natural end.  Oracle A never returns an
empty page (the model's instrumentation records `ceilingReached`); oracle B
ends naturally with an empty page 50 (`naturalEnd`); yet both runs return
the same accumulated records and the same number of fetches, and the
Python `collect_products` returns only the record list, so its caller
cannot distinguish the two runs. -/
theorem c5_counterexample :
    (Legacy.collect_products
        (fun _ => ⟨some ⟨some [⟨some 1, some "n", some 100, some 90, none, none, none,
          none, none, none, none, none, none, none⟩]⟩⟩)).outcome = .ceilingReached
      ∧ (Legacy.collect_products
          (fun p => ⟨some ⟨some (if p = 1 then
              [⟨some 1, some "n", some 100, some 90, none, none, none, none, none, none,
                none, none, none, none⟩,
                ⟨some 1, some "n", some 100, some 90, none, none, none, none, none, none,
                  none, none, none, none⟩]
            else if p ≤ 49 then
              [⟨some 1, some "n", some 100, some 90, none, none, none, none, none, none,
                none, none, none, none⟩]
            else [])⟩⟩)).outcome = .naturalEnd
      ∧ (Legacy.collect_products
          (fun _ => ⟨some ⟨some [⟨some 1, some "n", some 100, some 90, none, none, none,
            none, none, none, none, none, none, none⟩]⟩⟩)).cards
        = (Legacy.collect_products
            (fun p => ⟨some ⟨some (if p = 1 then
                [⟨some 1, some "n", some 100, some 90, none, none, none, none, none, none,
                  none, none, none, none⟩,
                  ⟨some 1, some "n", some 100, some 90, none, none, none, none, none, none,
                    none, none, none, none⟩]
              else if p ≤ 49 then
                [⟨some 1, some "n", some 100, some 90, none, none, none, none, none, none,
                  none, none, none, none⟩]
              else [])⟩⟩)).cards
      ∧ (Legacy.collect_products
          (fun _ => ⟨some ⟨some [⟨some 1, some "n", some 100, some 90, none, none, none,
            none, none, none, none, none, none, none⟩]⟩⟩)).fetches
        = (Legacy.collect_products
            (fun p => ⟨some ⟨some (if p = 1 then
                [⟨some 1, some "n", some 100, some 90, none, none, none, none, none, none,
                  none, none, none, none⟩,
                  ⟨some 1, some "n", some 100, some 90, none, none, none, none, none, none,
                    none, none, none, none⟩]
              else if p ≤ 49 then
                [⟨some 1, some "n", some 100, some 90, none, none, none, none, none, none,
                  none, none, none, none⟩]
              else [])⟩⟩)).fetches := by
  refine ⟨by decide, by decide, by decide, by decide⟩

/-- C5 amended: when no page among 1..N parses to an empty record list, the
harvest terminates after exactly N page fetches (N = 100 stable, N = 50
legacy) with every fetched page's records accumulated; however the code
does not report the ceiling outcome to the caller (the stable function
returns `None`, the legacy function returns only the record list), so the
`ceilingReached` component below is model instrumentation, not a value the
Python caller receives — see the counterexample for indistinguishability. -/
theorem c5_exact_ceiling_amended :
    (∀ (fetch : Nat → Except PyErr Stable.PageData) (ls : Nat → List Stable.Card),
        (∀ i, 1 ≤ i → i ≤ 100 →
          (fetch i).bind Stable.get_products_on_page = .ok (ls i) ∧ ls i ≠ []) →
        Stable.get_all_products_in_category fetch
          = ⟨((List.range 100).map fun i => ls (1 + i)).flatten, 100, .ceilingReached⟩)
      ∧ (∀ (pages : Nat → Legacy.PageData) (ls : Nat → List Legacy.Card),
          (∀ i, 1 ≤ i → i ≤ 50 →
            Legacy.extract_product_data (pages i) = .ok (ls i) ∧ ls i ≠ []) →
          Legacy.collect_products pages
            = ⟨((List.range 50).map fun i => ls (1 + i)).flatten, 50, .ceilingReached⟩) := by
  constructor
  · intro fetch ls h
    show Stable.category_loop fetch 1 100 = _
    rw [Stable.category_loop_eq]
    exact pageLoop_ceiling _ ls 100 1
      (fun i hi => ⟨(h (1 + i) (by omega) (by omega)).1, (h (1 + i) (by omega) (by omega)).2⟩)
  · intro pages ls h
    show pageLoop _ 1 50 = _
    exact pageLoop_ceiling _ ls 50 1
      (fun i hi => ⟨(h (1 + i) (by omega) (by omega)).1, (h (1 + i) (by omega) (by omega)).2⟩)

/-- C5 witness: an oracle whose every page holds one record drives the
stable harvest to exactly 100 fetches. -/
theorem c5_witness :
    Stable.get_all_products_in_category
        (fun _ => .ok ⟨some ⟨some [⟨7, "n", "b", 3, 100, 90, 4, 5⟩]⟩⟩)
      = ⟨((List.range 100).map fun i =>
            (fun _ : Nat => [Stable.toCard ⟨7, "n", "b", 3, 100, 90, 4, 5⟩]) (1 + i)).flatten,
          100, .ceilingReached⟩ :=
  c5_exact_ceiling_amended.1
    (fun _ => .ok ⟨some ⟨some [⟨7, "n", "b", 3, 100, 90, 4, 5⟩]⟩⟩)
    (fun _ => [Stable.toCard ⟨7, "n", "b", 3, 100, 90, 4, 5⟩])
    (fun i h1 h2 => ⟨rfl, by simp⟩)

/-! ## Claim C1 -/

/-- C1: a page fetch returning a permanent error — a well-formed error
payload, i.e. a decoded response lacking the product container — aborts the
whole harvest with a propagated error after exactly that page's fetch, with
no further page requests, in both versions (the parse raises `KeyError`,
which nothing catches); and the legacy retry decorator around the fetch
does not retry such a page, because the fetch itself returned successfully
on its first attempt. -/
theorem c1_permanent_error_aborts :
    (∀ (fetch : Nat → Except PyErr Stable.PageData) (ls : Nat → List Stable.Card)
        (j : Nat) (pd : Stable.PageData), 1 ≤ j → j ≤ 100 →
        (∀ i, 1 ≤ i → i < j →
          (fetch i).bind Stable.get_products_on_page = .ok (ls i) ∧ ls i ≠ []) →
        fetch j = .ok pd → pd.data = none →
        Stable.get_all_products_in_category fetch
          = ⟨((List.range (j - 1)).map fun i => ls (1 + i)).flatten, j,
              .aborted (.keyError "data")⟩)
      ∧ (∀ (pages : Nat → Legacy.PageData) (ls : Nat → List Legacy.Card)
          (j : Nat), 1 ≤ j → j ≤ 50 →
          (∀ i, 1 ≤ i → i < j →
            Legacy.extract_product_data (pages i) = .ok (ls i) ∧ ls i ≠ []) →
          (pages j).data = none →
          Legacy.collect_products pages
            = ⟨((List.range (j - 1)).map fun i => ls (1 + i)).flatten, j,
                .aborted (.keyError "data")⟩)
      ∧ (∀ {α : Type} (att : Nat → Except PyErr α) (v : α) (i fuel : Nat),
          att i = .ok v → Legacy.retry_call att i (fuel + 1) = some (v, 1)) := by
  refine ⟨?_, ?_, ?_⟩
  · intro fetch ls j pd h1 h100 hgood hj hdata
    show Stable.category_loop fetch 1 100 = _
    rw [Stable.category_loop_eq]
    have habort := pageLoop_abort
      (fun q => (fetch q).bind Stable.get_products_on_page) ls (j - 1) 1 100
      (.keyError "data") (by omega)
      (fun i hi => ⟨(hgood (1 + i) (by omega) (by omega)).1,
        (hgood (1 + i) (by omega) (by omega)).2⟩)
      (by
        show (fetch (1 + (j - 1))).bind Stable.get_products_on_page
          = .error (.keyError "data")
        rw [show 1 + (j - 1) = j by omega, hj]
        show Stable.get_products_on_page pd = .error (.keyError "data")
        simp [Stable.get_products_on_page, hdata])
    rw [habort, show j - 1 + 1 = j by omega]
  · intro pages ls j h1 h50 hgood hdata
    show pageLoop _ 1 50 = _
    have habort := pageLoop_abort
      (fun p => Legacy.extract_product_data (pages p)) ls (j - 1) 1 50
      (.keyError "data") (by omega)
      (fun i hi => ⟨(hgood (1 + i) (by omega) (by omega)).1,
        (hgood (1 + i) (by omega) (by omega)).2⟩)
      (by
        show Legacy.extract_product_data (pages (1 + (j - 1))) = .error (.keyError "data")
        rw [show 1 + (j - 1) = j by omega]
        simp [Legacy.extract_product_data, hdata])
    rw [habort, show j - 1 + 1 = j by omega]
  · intro α att v i fuel h
    simp [Legacy.retry_call, h]

/-- C1 witness: page 1 parses to one record, page 2 returns a payload with
no product container: the legacy harvest stops after exactly 2 fetches with
the propagated `KeyError`. -/
theorem c1_witness :
    Legacy.collect_products
        (fun p => if p = 2 then ⟨none⟩ else
          ⟨some ⟨some [⟨some 1, some "n", some 100, some 90, none, none, none, none,
            none, none, none, none, none, none⟩]⟩⟩)
      = ⟨((List.range 1).map fun i =>
            (fun _ : Nat => [(⟨some 1, some "n", 1, 0, none, none, none, none, none,
              none, none, none, none, none,
              "https://www.wildberries.ru/catalog/1/detail.aspx?targetUrl=BP"⟩
                : Legacy.Card)]) (1 + i)).flatten,
          2, .aborted (.keyError "data")⟩ := by
  exact c1_permanent_error_aborts.2.1
    (fun p => if p = 2 then ⟨none⟩ else
      ⟨some ⟨some [⟨some 1, some "n", some 100, some 90, none, none, none, none,
        none, none, none, none, none, none⟩]⟩⟩)
    (fun _ => [⟨some 1, some "n", 1, 0, none, none, none, none, none, none, none,
      none, none, none, "https://www.wildberries.ru/catalog/1/detail.aspx?targetUrl=BP"⟩])
    2 (by omega) (by omega)
    (by
      intro i hi1 hi2
      have : i = 1 := by omega
      subst this
      exact ⟨rfl, by simp⟩)
    rfl
